import Mathlib

/-!
Verification of the indexing core of the `tracer` retrieval service.

The Python sources are shallowly embedded: each Lean definition mirrors one
Python function or method of the repository, with Python floats rendered as
rationals, Python dicts rendered as association lists or as total functions
with the dict's default, and Python exceptions rendered as `Except` errors.
-/

/-- Errors surfaced by the embedded code.  `insufficientMemory` renders the
`ValueError("Not enough ... memory available")` raised by `MemoryManager`
(the spec's error taxonomy calls it InsufficientMemory); `notLoaded` renders
`NotLoadedError`; `typeError` renders the `TypeError` Python raises when
iterating `None`; `keyError` renders a Python `KeyError` with the missing
key; `valueError` renders the plain `ValueError`s of the registries. -/
inductive PyErr where
  | insufficientMemory
  | notLoaded
  | typeError
  | keyError (key : String)
  | valueError
deriving DecidableEq

/-! ## MemoryManager (src/src/indexing/memory.py)

State of a `MemoryManager`: three fixed budgets and three available
counters, all Python floats, rendered as rationals. -/

structure MemState where
  max_memory : ℚ
  max_indexing_memory : ℚ
  max_clustering_memory : ℚ
  memory_available : ℚ
  indexing_memory_available : ℚ
  clustering_memory_available : ℚ
deriving DecidableEq

/-- Embeds `MemoryManager.__init__`: every available counter starts at its budget. -/
def MemState.init (max_memory max_indexing_memory max_clustering_memory : ℚ) : MemState :=
  { max_memory := max_memory
    max_indexing_memory := max_indexing_memory
    max_clustering_memory := max_clustering_memory
    memory_available := max_memory
    indexing_memory_available := max_indexing_memory
    clustering_memory_available := max_clustering_memory }

/-- Embeds `MemoryManager.use_memory`. -/
def use_memory (s : MemState) (amount : ℚ) : Except PyErr MemState :=
  if amount > s.memory_available then
    .error .insufficientMemory
  else
    .ok { s with memory_available := s.memory_available - amount }

/-- Embeds `MemoryManager.free_memory`. -/
def free_memory (s : MemState) (amount : ℚ) : MemState :=
  { s with memory_available := s.memory_available + amount }

/-- Embeds `MemoryManager.use_indexing_memory`. -/
def use_indexing_memory (s : MemState) (amount : ℚ) : Except PyErr MemState :=
  if amount > s.indexing_memory_available ∨ amount > s.memory_available then
    .error .insufficientMemory
  else
    .ok { s with
          indexing_memory_available := s.indexing_memory_available - amount
          memory_available := s.memory_available - amount }

/-- Embeds `MemoryManager.free_indexing_memory`. -/
def free_indexing_memory (s : MemState) (amount : ℚ) : MemState :=
  { s with
    indexing_memory_available := s.indexing_memory_available + amount
    memory_available := s.memory_available + amount }

/-- Embeds `MemoryManager.use_clustering_memory`. -/
def use_clustering_memory (s : MemState) (amount : ℚ) : Except PyErr MemState :=
  if amount > s.clustering_memory_available ∨ amount > s.memory_available then
    .error .insufficientMemory
  else
    .ok { s with
          clustering_memory_available := s.clustering_memory_available - amount
          memory_available := s.memory_available - amount }

/-- Embeds `MemoryManager.free_clustering_memory`. -/
def free_clustering_memory (s : MemState) (amount : ℚ) : MemState :=
  { s with
    clustering_memory_available := s.clustering_memory_available + amount
    memory_available := s.memory_available + amount }

/-- One call into the `MemoryManager`, tagged with its amount. -/
inductive MemOp where
  | use_memory (amount : ℚ)
  | free_memory (amount : ℚ)
  | use_indexing_memory (amount : ℚ)
  | free_indexing_memory (amount : ℚ)
  | use_clustering_memory (amount : ℚ)
  | free_clustering_memory (amount : ℚ)
deriving DecidableEq

def MemOp.amount : MemOp → ℚ
  | .use_memory a => a
  | .free_memory a => a
  | .use_indexing_memory a => a
  | .free_indexing_memory a => a
  | .use_clustering_memory a => a
  | .free_clustering_memory a => a

/-- Effect of one call on the manager's state.  A raised `ValueError`
propagates to the caller before any field is assigned, so on failure the
state is unchanged. -/
def memStep (s : MemState) : MemOp → MemState
  | .use_memory a => ((use_memory s a).toOption).getD s
  | .free_memory a => free_memory s a
  | .use_indexing_memory a => ((use_indexing_memory s a).toOption).getD s
  | .free_indexing_memory a => free_indexing_memory s a
  | .use_clustering_memory a => ((use_clustering_memory s a).toOption).getD s
  | .free_clustering_memory a => free_clustering_memory s a

/-- A finite interleaving of reserve/release calls, serialized by the
manager's single lock. -/
def memRun (s : MemState) (ops : List MemOp) : MemState :=
  ops.foldl memStep s

lemma memStep_max_memory (s : MemState) (op : MemOp) :
    (memStep s op).max_memory = s.max_memory := by
  cases op <;>
    simp only [memStep, use_memory, free_memory, use_indexing_memory, free_indexing_memory,
      use_clustering_memory, free_clustering_memory] <;>
    split <;> rfl

/-- Non-negativity is preserved by every single step, given a non-negative
amount. -/
lemma memStep_nonneg (s : MemState) (op : MemOp) (hop : 0 ≤ op.amount)
    (h1 : 0 ≤ s.memory_available) (h2 : 0 ≤ s.indexing_memory_available)
    (h3 : 0 ≤ s.clustering_memory_available) :
    0 ≤ (memStep s op).memory_available ∧
    0 ≤ (memStep s op).indexing_memory_available ∧
    0 ≤ (memStep s op).clustering_memory_available := by
  cases op with
  | use_memory a =>
    simp only [MemOp.amount] at hop
    by_cases h : a > s.memory_available
    · simp only [memStep, use_memory, if_pos h, Except.toOption, Option.getD]
      exact ⟨h1, h2, h3⟩
    · simp only [memStep, use_memory, if_neg h, Except.toOption, Option.getD]
      push_neg at h
      exact ⟨by show 0 ≤ s.memory_available - a; linarith, h2, h3⟩
  | free_memory a =>
    simp only [MemOp.amount] at hop
    exact ⟨by show 0 ≤ s.memory_available + a; linarith, h2, h3⟩
  | use_indexing_memory a =>
    simp only [MemOp.amount] at hop
    by_cases h : a > s.indexing_memory_available ∨ a > s.memory_available
    · simp only [memStep, use_indexing_memory, if_pos h, Except.toOption, Option.getD]
      exact ⟨h1, h2, h3⟩
    · simp only [memStep, use_indexing_memory, if_neg h, Except.toOption, Option.getD]
      push_neg at h
      exact ⟨by show 0 ≤ s.memory_available - a; linarith [h.2],
        by show 0 ≤ s.indexing_memory_available - a; linarith [h.1], h3⟩
  | free_indexing_memory a =>
    simp only [MemOp.amount] at hop
    exact ⟨by show 0 ≤ s.memory_available + a; linarith,
      by show 0 ≤ s.indexing_memory_available + a; linarith, h3⟩
  | use_clustering_memory a =>
    simp only [MemOp.amount] at hop
    by_cases h : a > s.clustering_memory_available ∨ a > s.memory_available
    · simp only [memStep, use_clustering_memory, if_pos h, Except.toOption, Option.getD]
      exact ⟨h1, h2, h3⟩
    · simp only [memStep, use_clustering_memory, if_neg h, Except.toOption, Option.getD]
      push_neg at h
      exact ⟨by show 0 ≤ s.memory_available - a; linarith [h.2], h2,
        by show 0 ≤ s.clustering_memory_available - a; linarith [h.1]⟩
  | free_clustering_memory a =>
    simp only [MemOp.amount] at hop
    exact ⟨by show 0 ≤ s.memory_available + a; linarith, h2,
      by show 0 ≤ s.clustering_memory_available + a; linarith⟩

lemma memRun_nonneg (ops : List MemOp) (s : MemState)
    (hops : ∀ op ∈ ops, 0 ≤ op.amount)
    (h1 : 0 ≤ s.memory_available) (h2 : 0 ≤ s.indexing_memory_available)
    (h3 : 0 ≤ s.clustering_memory_available) :
    0 ≤ (memRun s ops).memory_available ∧
    0 ≤ (memRun s ops).indexing_memory_available ∧
    0 ≤ (memRun s ops).clustering_memory_available := by
  induction ops generalizing s with
  | nil => exact ⟨h1, h2, h3⟩
  | cons op ops ih =>
    have hstep := memStep_nonneg s op (hops op (List.mem_cons_self op ops)) h1 h2 h3
    exact ih (memStep s op) (fun o ho => hops o (List.mem_cons_of_mem op ho))
      hstep.1 hstep.2.1 hstep.2.2

/-- C4 counterexample: the claim requires every counter to stay within
`[0, max]` for every interleaving of reserve and release calls.  Releasing
memory that was never reserved refutes it: starting from budgets
`(20, 5, 5)`, the single call `free_memory(1)` drives the general available
counter to `21`, strictly above its configured maximum `20`. -/
theorem memory_exceeds_max_counterexample :
    (memRun (MemState.init 20 5 5) [MemOp.free_memory 1]).max_memory = 20 ∧
    (memRun (MemState.init 20 5 5) [MemOp.free_memory 1]).memory_available = 21 ∧
    ¬ (memRun (MemState.init 20 5 5) [MemOp.free_memory 1]).memory_available ≤
      (memRun (MemState.init 20 5 5) [MemOp.free_memory 1]).max_memory := by
  refine ⟨rfl, ?_, ?_⟩ <;>
    simp only [memRun, List.foldl, memStep, free_memory, MemState.init] <;> norm_num

/-- C4 (amended): after any interleaving of the six reserve/release calls
with non-negative amounts, starting from the configured budgets, each of
the three available counters remains non-negative.  (The upper bound of the
original claim fails: the release operations add unconditionally, see
`memory_exceeds_max_counterexample`.) -/
theorem memory_available_nonneg (m mi mc : ℚ) (ops : List MemOp)
    (hm : 0 ≤ m) (hmi : 0 ≤ mi) (hmc : 0 ≤ mc)
    (hops : ∀ op ∈ ops, 0 ≤ op.amount) :
    0 ≤ (memRun (MemState.init m mi mc) ops).memory_available ∧
    0 ≤ (memRun (MemState.init m mi mc) ops).indexing_memory_available ∧
    0 ≤ (memRun (MemState.init m mi mc) ops).clustering_memory_available :=
  memRun_nonneg ops (MemState.init m mi mc) hops hm hmi hmc

/-- C4 witness. -/
theorem memory_available_nonneg_witness :
    0 ≤ (memRun (MemState.init 20 5 5)
          [MemOp.use_indexing_memory 3, MemOp.free_indexing_memory 3,
           MemOp.use_clustering_memory 9, MemOp.use_memory 20]).memory_available ∧
    0 ≤ (memRun (MemState.init 20 5 5)
          [MemOp.use_indexing_memory 3, MemOp.free_indexing_memory 3,
           MemOp.use_clustering_memory 9, MemOp.use_memory 20]).indexing_memory_available ∧
    0 ≤ (memRun (MemState.init 20 5 5)
          [MemOp.use_indexing_memory 3, MemOp.free_indexing_memory 3,
           MemOp.use_clustering_memory 9, MemOp.use_memory 20]).clustering_memory_available :=
  memory_available_nonneg 20 5 5
    [MemOp.use_indexing_memory 3, MemOp.free_indexing_memory 3,
     MemOp.use_clustering_memory 9, MemOp.use_memory 20]
    (by norm_num) (by norm_num) (by norm_num) (by decide)

/-- C5: `use_indexing_memory(n)` and `use_clustering_memory(n)` raise
InsufficientMemory exactly when debiting `n` would drive the specialized or
the general available counter negative; on failure the state is unchanged
(`memStep` keeps `s`), and on success both the specialized and the general
counter are debited by `n` while every other field is unchanged. -/
theorem reserve_memory_spec (s : MemState) (n : ℚ) :
    (use_indexing_memory s n = .error .insufficientMemory ↔
      s.indexing_memory_available - n < 0 ∨ s.memory_available - n < 0) ∧
    (use_clustering_memory s n = .error .insufficientMemory ↔
      s.clustering_memory_available - n < 0 ∨ s.memory_available - n < 0) ∧
    ((s.indexing_memory_available - n < 0 ∨ s.memory_available - n < 0) →
      memStep s (.use_indexing_memory n) = s) ∧
    ((s.clustering_memory_available - n < 0 ∨ s.memory_available - n < 0) →
      memStep s (.use_clustering_memory n) = s) ∧
    (¬ (s.indexing_memory_available - n < 0 ∨ s.memory_available - n < 0) →
      use_indexing_memory s n = .ok { s with
        indexing_memory_available := s.indexing_memory_available - n
        memory_available := s.memory_available - n }) ∧
    (¬ (s.clustering_memory_available - n < 0 ∨ s.memory_available - n < 0) →
      use_clustering_memory s n = .ok { s with
        clustering_memory_available := s.clustering_memory_available - n
        memory_available := s.memory_available - n }) := by
  have hidx : (n > s.indexing_memory_available ∨ n > s.memory_available) ↔
      (s.indexing_memory_available - n < 0 ∨ s.memory_available - n < 0) := by
    constructor
    · rintro (h | h)
      · exact Or.inl (by linarith)
      · exact Or.inr (by linarith)
    · rintro (h | h)
      · exact Or.inl (by linarith)
      · exact Or.inr (by linarith)
  have hclu : (n > s.clustering_memory_available ∨ n > s.memory_available) ↔
      (s.clustering_memory_available - n < 0 ∨ s.memory_available - n < 0) := by
    constructor
    · rintro (h | h)
      · exact Or.inl (by linarith)
      · exact Or.inr (by linarith)
    · rintro (h | h)
      · exact Or.inl (by linarith)
      · exact Or.inr (by linarith)
  refine ⟨?_, ?_, ?_, ?_, ?_, ?_⟩
  · rw [use_indexing_memory]
    split
    · next h => exact iff_of_true rfl (hidx.mp h)
    · next h => exact iff_of_false (by simp) (fun hc => h (hidx.mpr hc))
  · rw [use_clustering_memory]
    split
    · next h => exact iff_of_true rfl (hclu.mp h)
    · next h => exact iff_of_false (by simp) (fun hc => h (hclu.mpr hc))
  · intro hc
    simp only [memStep]
    rw [use_indexing_memory, if_pos (hidx.mpr hc)]
    rfl
  · intro hc
    simp only [memStep]
    rw [use_clustering_memory, if_pos (hclu.mpr hc)]
    rfl
  · intro hc
    rw [use_indexing_memory, if_neg (fun h => hc (hidx.mp h))]
  · intro hc
    rw [use_clustering_memory, if_neg (fun h => hc (hclu.mp h))]

/-- C5 witness: a concrete successful reserve and a concrete failing one. -/
theorem reserve_memory_spec_witness :
    use_indexing_memory (MemState.init 20 5 5) 3 = .ok { MemState.init 20 5 5 with
      indexing_memory_available := 5 - 3
      memory_available := 20 - 3 } ∧
    use_clustering_memory (MemState.init 20 5 5) 7 = .error .insufficientMemory :=
  ⟨(reserve_memory_spec (MemState.init 20 5 5) 3).2.2.2.2.1 (by norm_num [MemState.init]),
   (reserve_memory_spec (MemState.init 20 5 5) 7).2.1.mpr (by norm_num [MemState.init])⟩

/-! ## Index.save (src/src/indexing/index/store/faiss_index.py and bm25_index.py)

Python truthiness model, needed because both `save` methods compute their
destination with the boolean operators `and` / `or` applied to a
`str | None` argument. -/

inductive PyVal where
  | vnone
  | vbool (b : Bool)
  | vstr (s : String)
deriving DecidableEq

def pyTruthy : PyVal → Bool
  | .vnone => false
  | .vbool b => b
  | .vstr s => !(s == "")

/-- Python `and`: returns the left operand when it is falsy, else the right. -/
def pyAnd (a b : PyVal) : PyVal :=
  if pyTruthy a then b else a

/-- Python `or`: returns the left operand when it is truthy, else the right. -/
def pyOr (a b : PyVal) : PyVal :=
  if pyTruthy a then a else b

def PyVal.ofOpt : Option String → PyVal
  | none => .vnone
  | some s => .vstr s

/-- Destination of the primary artifact in `FaissIndex.save`: the code
passes `path != None and self._path` to `faiss.write_index`. -/
def faiss_write_dest (self_path : String) (path : Option String) : PyVal :=
  pyAnd (.vbool (path ≠ none)) (.vstr self_path)

/-- Destination of the sidecar in `FaissIndex.save`: always
`f"{self._path}.metadata"`, regardless of the `path` argument. -/
def faiss_metadata_dest (self_path : String) (_path : Option String) : String :=
  self_path ++ ".metadata"

/-- Destination of the artifact in `BM25Index.save`: the code passes
`path != None and path or self._path` to `torch.save`. -/
def bm25_save_dest (self_path : String) (path : Option String) : PyVal :=
  pyOr (pyAnd (.vbool (path ≠ none)) (PyVal.ofOpt path)) (.vstr self_path)

/-- C2: the claim (and the `GenericIndex.save` docstring, "Save the index
data to the specified path ... If None, save to the original path") is
violated by `FaissIndex.save`: with an explicit path the primary artifact is
written to the shard's own `self._path` instead of the given path, and with
the argument omitted it is written to the Python value `False` rather than
to `self._path`.  The BM25 variant computes the intended destination. -/
theorem faiss_save_path_bug :
    faiss_write_dest "orig.faiss" (some "new.faiss") = .vstr "orig.faiss" ∧
    PyVal.vstr "orig.faiss" ≠ PyVal.vstr "new.faiss" ∧
    faiss_write_dest "orig.faiss" none = .vbool false ∧
    faiss_metadata_dest "orig.faiss" (some "new.faiss") = "orig.faiss.metadata" ∧
    bm25_save_dest "orig.bm25" (some "new.bm25") = .vstr "new.bm25" ∧
    bm25_save_dest "orig.bm25" none = .vstr "orig.bm25" := by
  refine ⟨rfl, by decide, rfl, rfl, rfl, rfl⟩

/-! ## ProviderInstanceRegistry (src/src/provider/provider_instance_registry.py) -/

/-- Association-list lookup mirroring a Python dict access. -/
def alookup {κ : Type} {β : Type} [DecidableEq κ] (l : List (κ × β)) (k : κ) : Option β :=
  match l with
  | [] => none
  | (k2, v) :: rest => if k2 = k then some v else alookup rest k

/-- Events published by `ProviderInstanceRegistry._notify_all`. -/
inductive PIREvent where
  | add (target : ℕ)
  | remove (target : ℕ)
deriving DecidableEq

/-- State of a `ProviderInstanceRegistry`: the `_registry` dict in insertion
order (`α` is the `GenericProvider` payload) and the `_observers` list,
identified here by observer ids. -/
structure PIRState (α : Type) where
  registry : List (ℕ × α)
  observers : List ℕ
deriving DecidableEq

/-- Embeds `ProviderInstanceRegistry.add`: returns the method's boolean result, the
updated state, and the notifications delivered by `_notify_all` (one
`(observer, event)` pair per attached observer, in registration order). -/
def pir_add {α : Type} (s : PIRState α) (key : ℕ) (value : α) :
    Bool × PIRState α × List (ℕ × PIREvent) :=
  if (alookup s.registry key).isSome then
    (false, s, [])
  else
    (true, { s with registry := s.registry ++ [(key, value)] },
      s.observers.map (fun o => (o, PIREvent.add key)))

lemma alookup_isSome_iff_mem {α : Type} (l : List (ℕ × α)) (k : ℕ) :
    (alookup l k).isSome = true ↔ k ∈ l.map Prod.fst := by
  induction l with
  | nil => simp [alookup]
  | cons p rest ih =>
    obtain ⟨k2, v⟩ := p
    by_cases h : k2 = k
    · subst h
      simp [alookup]
    · simp only [alookup, if_neg h, List.map_cons, List.mem_cons]
      rw [ih]
      constructor
      · exact Or.inr
      · rintro (hk | hk)
        · exact absurd hk.symm h
        · exact hk

/-- C10: `add(key, provider)` on a key already present returns `False`,
leaves the registry unchanged and notifies nobody; on a fresh key it
appends the pair, returns `True`, and `_notify_all` delivers `Add(key)` to
every attached observer exactly once (once per attachment), in order. -/
theorem provider_registry_add_spec {α : Type} (s : PIRState α) (key : ℕ) (value : α) :
    (key ∈ s.registry.map Prod.fst → pir_add s key value = (false, s, [])) ∧
    (key ∉ s.registry.map Prod.fst →
      (pir_add s key value).1 = true ∧
      (pir_add s key value).2.1.registry = s.registry ++ [(key, value)] ∧
      (pir_add s key value).2.1.observers = s.observers ∧
      (pir_add s key value).2.2 = s.observers.map (fun o => (o, PIREvent.add key)) ∧
      ∀ o : ℕ, ((pir_add s key value).2.2).count (o, PIREvent.add key) =
        s.observers.count o) := by
  constructor
  · intro hmem
    rw [pir_add, if_pos ((alookup_isSome_iff_mem s.registry key).mpr hmem)]
  · intro hmem
    have hnone : (alookup s.registry key).isSome ≠ true :=
      fun h => hmem ((alookup_isSome_iff_mem s.registry key).mp h)
    rw [pir_add, if_neg (by simpa using hnone)]
    refine ⟨rfl, rfl, rfl, rfl, ?_⟩
    intro o
    induction s.observers with
    | nil => rfl
    | cons ob rest ih =>
      by_cases h : ob = o
      · subst h
        simp [List.count_cons, ih]
      · simp only [List.map_cons, List.count_cons, ih]
        have : ((ob, PIREvent.add key) = (o, PIREvent.add key)) ↔ False := by
          simp [h]
        simp [h, this]

/-- C10 witness: a registry holding key 1 with observers `[4, 4, 9]`. -/
theorem provider_registry_add_spec_witness :
    ((1 : ℕ) ∈ ([(1, "p1")] : List (ℕ × String)).map Prod.fst ∧
      pir_add ⟨[(1, "p1")], [4, 4, 9]⟩ 1 "q" = (false, ⟨[(1, "p1")], [4, 4, 9]⟩, [])) ∧
    ((2 : ℕ) ∉ ([(1, "p1")] : List (ℕ × String)).map Prod.fst ∧
      (pir_add ⟨[(1, "p1")], [4, 4, 9]⟩ 2 "q").2.2.count (4, PIREvent.add 2) =
        ([4, 4, 9] : List ℕ).count 4) :=
  ⟨⟨by decide,
    (provider_registry_add_spec ⟨[(1, "p1")], [4, 4, 9]⟩ 1 "q").1 (by decide)⟩,
   ⟨by decide,
    ((provider_registry_add_spec ⟨[(1, "p1")], [4, 4, 9]⟩ 2 "q").2 (by decide)).2.2.2.2 4⟩⟩

/-! ## ProviderQueue (src/src/provider/provider_queue.py)

Step relation of the fetch scheduler.  State: the ids held by the
`ProviderInstanceRegistry`, the `SortedList` of `(last_fetched, id)` pairs,
and the set of in-flight `provider.run()` tasks. -/

structure QState where
  registry : List ℕ
  queue : List (ℤ × ℕ)
  inflight : List ℕ
deriving DecidableEq

/-- Embeds `SortedList.add`: insert keeping the list sorted by `(last_fetched, id)`. -/
def qInsert (p : ℤ × ℕ) : List (ℤ × ℕ) → List (ℤ × ℕ)
  | [] => [p]
  | q :: rest =>
    if p.1 < q.1 ∨ (p.1 = q.1 ∧ p.2 ≤ q.2) then p :: q :: rest else q :: qInsert p rest

/-- The scheduler-relevant transitions.
`addInstance` is `ProviderInstanceRegistry.add` followed by the scheduler's
`notify(ADD)`; `removeInstance` is `remove` followed by `notify(REMOVE)`,
which rebuilds the sorted list without the target; `skipMissing` is the run
loop's branch for a front entry no longer in the registry; `dispatchFront`
pops the ready front entry and submits `run()`; `completeTask` is the
wrapper's `finally` block, which unconditionally re-inserts the entry with
the re-read `last_fetched`. -/
inductive QEvent where
  | addInstance (target : ℕ) (last_fetched : ℤ)
  | removeInstance (target : ℕ)
  | skipMissing
  | dispatchFront (now : ℤ)
  | completeTask (target : ℕ) (last_fetched : ℤ)
deriving DecidableEq

/-- Whether an event is an `add` of instance `i` (the only transition that
puts an id back into the registry). -/
def QEvent.addsId (e : QEvent) (i : ℕ) : Bool :=
  match e with
  | .addInstance j _ => j = i
  | _ => false

/-- One scheduler transition; the second component is `some i` when the
transition dispatched `provider.run()` for instance `i`. -/
def qStep (fetching_time : ℤ) (s : QState) : QEvent → QState × Option ℕ
  | .addInstance i t =>
      if i ∈ s.registry then (s, none)
      else ({ s with registry := i :: s.registry, queue := qInsert (t, i) s.queue }, none)
  | .removeInstance i =>
      if i ∈ s.registry then
        ({ s with registry := s.registry.erase i,
                  queue := s.queue.filter (fun p => p.2 ≠ i) }, none)
      else (s, none)
  | .skipMissing =>
      match s.queue with
      | [] => (s, none)
      | (_, i) :: rest =>
        if i ∈ s.registry then (s, none) else ({ s with queue := rest }, none)
  | .dispatchFront now =>
      match s.queue with
      | [] => (s, none)
      | (t, i) :: rest =>
        if i ∈ s.registry ∧ fetching_time - (now - t) ≤ 0 then
          ({ s with queue := rest, inflight := i :: s.inflight }, some i)
        else (s, none)
  | .completeTask i t =>
      if i ∈ s.inflight then
        ({ s with inflight := s.inflight.erase i, queue := qInsert (t, i) s.queue }, none)
      else (s, none)

/-- Run a sequence of transitions, collecting every dispatched instance. -/
def qRun (fetching_time : ℤ) (s : QState) : List QEvent → QState × List ℕ
  | [] => (s, [])
  | e :: es =>
    let step := qStep fetching_time s e
    let rest := qRun fetching_time step.1 es
    (rest.1, step.2.toList ++ rest.2)

lemma qStep_registry_not_mem (fetching_time : ℤ) (s : QState) (e : QEvent) (i : ℕ)
    (hi : i ∉ s.registry) (he : QEvent.addsId e i = false) :
    i ∉ (qStep fetching_time s e).1.registry := by
  cases e with
  | addInstance j t =>
    simp only [QEvent.addsId, decide_eq_false_iff_not] at he
    by_cases hj : j ∈ s.registry
    · simpa [qStep, hj] using hi
    · simp only [qStep, if_neg hj]
      intro hmem
      rcases List.mem_cons.mp hmem with h | h
      · exact he h.symm
      · exact hi h
  | removeInstance j =>
    by_cases hj : j ∈ s.registry
    · simp only [qStep, if_pos hj]
      exact fun hmem => hi (List.mem_of_mem_erase hmem)
    · simpa [qStep, hj] using hi
  | skipMissing =>
    rcases hq : s.queue with _ | ⟨⟨t, j⟩, rest⟩
    · simpa [qStep, hq] using hi
    · by_cases hj : j ∈ s.registry <;> simpa [qStep, hq, hj] using hi
  | dispatchFront now =>
    rcases hq : s.queue with _ | ⟨⟨t, j⟩, rest⟩
    · simpa [qStep, hq] using hi
    · simp only [qStep, hq]
      split
      · exact hi
      · exact hi
  | completeTask j t =>
    by_cases hj : j ∈ s.inflight <;> simpa [qStep, hj] using hi

lemma qStep_dispatch_mem (fetching_time : ℤ) (s : QState) (e : QEvent) (i : ℕ)
    (h : (qStep fetching_time s e).2 = some i) : i ∈ s.registry := by
  cases e with
  | addInstance j t =>
    by_cases hj : j ∈ s.registry <;> simp [qStep, hj] at h
  | removeInstance j =>
    by_cases hj : j ∈ s.registry <;> simp [qStep, hj] at h
  | skipMissing =>
    rcases hq : s.queue with _ | ⟨⟨t, j⟩, rest⟩
    · simp [qStep, hq] at h
    · by_cases hj : j ∈ s.registry <;> simp [qStep, hq, hj] at h
  | dispatchFront now =>
    rcases hq : s.queue with _ | ⟨⟨t, j⟩, rest⟩
    · simp [qStep, hq] at h
    · simp only [qStep, hq] at h
      split at h
      · next hcond => exact (Option.some.inj h) ▸ hcond.1
      · exact Option.noConfusion h
  | completeTask j t =>
    by_cases hj : j ∈ s.inflight <;> simp [qStep, hj] at h

/-- C6 counterexample: a removed instance re-enters the sorted queue.  With
`FETCHING_TIME = 60`: add instance 1 (last fetched at 0), dispatch it at
time 100, remove it while its task is in flight, and let the task complete
re-reading `last_fetched = 90`.  The wrapper's `finally` block re-inserts
`(90, 1)` unconditionally, so the queue again holds the removed instance. -/
theorem removed_instance_reenters_queue :
    (qRun 60 ⟨[], [], []⟩
      [QEvent.addInstance 1 0, QEvent.dispatchFront 100,
       QEvent.removeInstance 1, QEvent.completeTask 1 90]).1.queue = [(90, 1)] ∧
    1 ∉ (qRun 60 ⟨[], [], []⟩
      [QEvent.addInstance 1 0, QEvent.dispatchFront 100,
       QEvent.removeInstance 1, QEvent.completeTask 1 90]).1.registry := by
  constructor <;> decide

/-- C6 (amended): once an instance has been removed (and not re-added), it
is never dispatched again — `provider.run()` is only submitted after the
run loop re-reads the instance from the registry — although its entry can
re-enter the sorted queue when an in-flight task finishes after the
removal (see `removed_instance_reenters_queue`); such stale entries are
popped without dispatch. -/
theorem removed_instance_never_dispatched (fetching_time : ℤ) (s : QState)
    (evs : List QEvent) (i : ℕ) (hi : i ∉ s.registry)
    (hadd : ∀ e ∈ evs, QEvent.addsId e i = false) :
    i ∉ (qRun fetching_time s evs).2 := by
  induction evs generalizing s with
  | nil => simp [qRun]
  | cons e es ih =>
    simp only [qRun, List.mem_append]
    rintro (hmem | hmem)
    · rcases hout : (qStep fetching_time s e).2 with _ | j
      · simp [hout] at hmem
      · simp only [hout, Option.toList, List.mem_singleton] at hmem
        subst hmem
        exact hi (qStep_dispatch_mem fetching_time s e i hout)
    · have hi2 := qStep_registry_not_mem fetching_time s e i hi
        (hadd e (List.mem_cons_self e es))
      exact ih (qStep fetching_time s e).1 hi2
        (fun e2 he2 => hadd e2 (List.mem_cons_of_mem e he2)) hmem

/-- C6 witness: instance 1 is absent from the registry and is not
dispatched across a trace that dispatches and completes instance 2. -/
theorem removed_instance_never_dispatched_witness :
    (1 : ℕ) ∉ ([2] : List ℕ) ∧
    1 ∉ (qRun 60 ⟨[2], [(0, 2)], []⟩
      [QEvent.dispatchFront 100, QEvent.completeTask 2 90]).2 :=
  ⟨by decide,
   removed_instance_never_dispatched 60 ⟨[2], [(0, 2)], []⟩
     [QEvent.dispatchFront 100, QEvent.completeTask 2 90] 1 (by decide) (by decide)⟩

/-! ## IndexRegistry (src/src/indexing/index_registry.py)

`_registry` and `_fillable_registry` are dicts `instance → dict (ext →
list of shards)` accessed with `setdefault`, rendered as total functions
with default `[]`; a shard is identified by its path.  Observers are
identified by ids; `_notify_all_registry_update` broadcasts to all of them
in order. -/

inductive IREvent where
  | add (target : ℕ)
  | remove (target : ℕ)
  | full (target : ℕ) (index_type : String) (position : ℕ)
deriving DecidableEq

structure IRState where
  registry : ℕ → String → List String
  fillable_registry : ℕ → String → List String
  observers : List ℕ

/-- Embeds `IndexRegistry.request_index_creation(id, ext)`.
`instance_index_path` renders `self._instance_registry.get(id)` followed by
`provider_instance.index_path`; `now_ms` renders `int(time.time() * 1000)`.
Returns the new state and the notifications of `_notify_all_registry_update
(ADD, id)`.  The new shard is appended to `_registry` only. -/
def request_index_creation (instance_index_path : ℕ → Option String) (now_ms : ℕ)
    (s : IRState) (target : ℕ) (ext : String) :
    Except PyErr (IRState × List (ℕ × IREvent)) :=
  match instance_index_path target with
  | none => .error .valueError
  | some root =>
    let path := root ++ "/" ++ toString now_ms ++ "." ++ ext
    .ok ({ s with registry := fun i e =>
             if i = target ∧ e = ext then s.registry target ext ++ [path]
             else s.registry i e },
         s.observers.map (fun o => (o, IREvent.add target)))

/-- C7 counterexample: the claim requires the new shard to be appended to
both tables.  From an empty registry for instance 1, after
`request_index_creation(1, "faiss")` the authoritative table holds the new
shard path but the fillable table is still empty: the method never touches
`_fillable_registry`. -/
theorem create_index_not_in_fillable :
    ((request_index_creation (fun i => if i = 1 then some "root" else none) 1000
        ⟨fun _ _ => [], fun _ _ => [], [7]⟩ 1 "faiss").toOption.map
      (fun p => p.1.registry 1 "faiss")) = some ["root/1000.faiss"] ∧
    ((request_index_creation (fun i => if i = 1 then some "root" else none) 1000
        ⟨fun _ _ => [], fun _ _ => [], [7]⟩ 1 "faiss").toOption.map
      (fun p => p.1.fillable_registry 1 "faiss")) = some [] := by
  constructor <;> rfl

/-- C7 (amended): `request_index_creation(id, ext)` allocates a new shard
with path `<index_path>/<epoch_ms>.<ext>` and appends it to the
authoritative registry table only — the fillable table is left unchanged —
then emits `Add(id)` to every attached observer. -/
theorem request_index_creation_spec (f : ℕ → Option String) (now_ms : ℕ)
    (s : IRState) (target : ℕ) (ext root : String) (h : f target = some root) :
    ((request_index_creation f now_ms s target ext).toOption.map
        (fun p => p.1.registry target ext)) =
      some (s.registry target ext ++ [root ++ "/" ++ toString now_ms ++ "." ++ ext]) ∧
    ((request_index_creation f now_ms s target ext).toOption.map
        (fun p => p.1.fillable_registry target ext)) =
      some (s.fillable_registry target ext) ∧
    ((request_index_creation f now_ms s target ext).toOption.map (fun p => p.2)) =
      some (s.observers.map (fun o => (o, IREvent.add target))) := by
  refine ⟨?_, ?_, ?_⟩ <;> simp [request_index_creation, h, Except.toOption]

/-- C7 witness. -/
theorem request_index_creation_spec_witness :
    ((request_index_creation (fun i => if i = 2 then some "idx" else none) 77
        ⟨fun _ _ => ["old.bm25"], fun _ _ => ["old.bm25"], [3, 4]⟩ 2 "bm25").toOption.map
      (fun p => p.1.registry 2 "bm25")) = some (["old.bm25"] ++ ["idx/77.bm25"]) ∧
    ((request_index_creation (fun i => if i = 2 then some "idx" else none) 77
        ⟨fun _ _ => ["old.bm25"], fun _ _ => ["old.bm25"], [3, 4]⟩ 2 "bm25").toOption.map
      (fun p => p.1.fillable_registry 2 "bm25")) = some ["old.bm25"] ∧
    ((request_index_creation (fun i => if i = 2 then some "idx" else none) 77
        ⟨fun _ _ => ["old.bm25"], fun _ _ => ["old.bm25"], [3, 4]⟩ 2 "bm25").toOption.map
      (fun p => p.2)) = some ([3, 4].map (fun o => (o, IREvent.add 2))) :=
  request_index_creation_spec (fun i => if i = 2 then some "idx" else none) 77
    ⟨fun _ _ => ["old.bm25"], fun _ _ => ["old.bm25"], [3, 4]⟩ 2 "bm25" "idx" rfl

/-! ## BM25Index and FaissIndex search
(src/src/indexing/index/store/bm25_index.py, faiss_index.py) -/

structure SearchResult where
  id : ℕ
  score : ℚ
deriving DecidableEq

/-- Python `str.split()` on the whitespace-separated queries and documents
used here: split on blanks, dropping empty fragments.  Written as structural
recursion over the character list so that it evaluates definitionally. -/
def pySplitAux : List Char → List Char → List String
  | [], acc => if acc.isEmpty then [] else [⟨acc.reverse⟩]
  | c :: cs, acc =>
    if c = ' ' then
      if acc.isEmpty then pySplitAux cs [] else ⟨acc.reverse⟩ :: pySplitAux cs []
    else pySplitAux cs (c :: acc)

def pySplit (s : String) : List String :=
  pySplitAux s.toList []

/-- In-memory state of a `BM25Index`.  `documents` is `self._documents`
(`None` when the shard is not loaded — `__init__` leaves it `None` and
`release` resets it to `None`); `document_terms` is `self._document_terms`
(document frequency per term); `term_freqs` is `self._term_freqs` (term
occurrence counts per document); `n` is `self._N`.  In every state the
search path can reach, `document_terms` and `term_freqs` are populated
exactly when `documents` is, so they are carried without the `Option`. -/
structure Bm25State where
  documents : Option (List (ℕ × List String))
  document_terms : List (String × ℤ)
  term_freqs : List (ℕ × List (String × ℕ))
  avg_doc_len : ℚ
  n : ℕ
  k : ℚ
  b : ℚ
  delta : ℚ

/-- Embeds `BM25Index._idf`: `math.log` is the abstract parameter `log`. -/
def bm25_idf (log : ℚ → ℚ) (s : Bm25State) (term : String) : ℚ :=
  let df : ℤ := (alookup s.document_terms term).getD 0
  log (((s.n : ℚ) + 1) / ((df : ℚ) + 1 / 2))

/-- Embeds `BM25Index._tf`: both subscript lookups can raise `KeyError`; `toks` is
`self._documents[doc_id]`, the tokens of the document being scored. -/
def bm25_tf (s : Bm25State) (term : String) (doc_id : ℕ) (toks : List String) :
    Except PyErr ℚ :=
  match alookup s.term_freqs doc_id with
  | none => .error (.keyError (toString doc_id))
  | some freqs =>
    match alookup freqs term with
    | none => .error (.keyError term)
    | some f =>
      let numerator := (s.k + 1) * (f : ℚ)
      let denominator := s.k * ((1 - s.b) + s.b * ((toks.length : ℚ) / s.avg_doc_len))
      .ok (numerator / denominator + s.delta)

/-- The inner loop of `BM25Index.search` for one document: sum
`idf[term] * tf(term, doc)` over the query terms.  (The Python `idf` dict
only caches `_idf`, which is pure, so the cache is semantically inert.) -/
def bm25_score_doc (log : ℚ → ℚ) (s : Bm25State) (query_terms : List String)
    (doc_id : ℕ) (toks : List String) : Except PyErr ℚ :=
  query_terms.foldlM
    (fun acc term => do
      let idfv := bm25_idf log s term
      let tfv ← bm25_tf s term doc_id toks
      pure (acc + idfv * tfv))
    (0 : ℚ)

/-- Stable descending insertion used to render Python
`sorted(scores, key=lambda x: x.score, reverse=True)`. -/
def insertScoreDesc (x : SearchResult) : List SearchResult → List SearchResult
  | [] => [x]
  | y :: ys => if x.score ≥ y.score then x :: y :: ys else y :: insertScoreDesc x ys

def sortScoresDesc : List SearchResult → List SearchResult
  | [] => []
  | x :: xs => insertScoreDesc x (sortScoresDesc xs)

/-- Embeds `BM25Index.search(query, k)`.  Iterating `self._documents` when it is
`None` (shard not loaded) raises a `TypeError`, not `NotLoadedError`. -/
def bm25_search (log : ℚ → ℚ) (s : Bm25State) (query : String) (k : ℕ) :
    Except PyErr (List SearchResult) :=
  match s.documents with
  | none => .error .typeError
  | some docs => do
    let query_terms := pySplit query
    let scores ← docs.foldlM
      (fun acc p => do
        let sc ← bm25_score_doc log s query_terms p.1 p.2
        pure (acc ++ [SearchResult.mk p.1 sc]))
      ([] : List SearchResult)
    pure ((sortScoresDesc scores).take k)

/-- In-memory state of a `FaissIndex`: `index` is `self._index`, the loaded
faiss object (opaque here, carried as `Unit`); `path` is `self._path`. -/
structure FaissState where
  index : Option Unit
  path : String

/-- Embeds `FaissIndex.search(query, k)`: the embedding and the faiss top-k call
are the abstract parameter `raw`; raw inner-product scores are mapped to
`[0,1]` by `(s + 1) / 2`.  When `self._index` is `None` the method raises
`NotLoadedError`. -/
def faiss_search (raw : String → ℕ → List (ℤ × ℚ)) (s : FaissState)
    (query : String) (k : ℕ) : Except PyErr (List (ℤ × ℚ)) :=
  match s.index with
  | none => .error .notLoaded
  | some _ => .ok (((raw query k).map (fun p => (p.1, (p.2 + 1) / 2))).take k)

/-- C8 counterexample: searching an unloaded lexical shard does not fail
with NotLoaded — `BM25Index.search` has no loaded-state check, so iterating
the `None` documents table raises a plain `TypeError`. -/
theorem bm25_unloaded_search_not_notloaded :
    bm25_search (fun q => q) ⟨none, [], [], 0, 0, 3 / 2, 7 / 10, 0⟩ "x" 1 =
      .error .typeError ∧
    (Except.error PyErr.typeError : Except PyErr (List SearchResult)) ≠
      .error .notLoaded := by
  refine ⟨rfl, fun h => absurd (Except.error.inj h) (by decide)⟩

/-- C8 (amended): `search` on a shard with no currently loaded state fails
and the error propagates, but the error kind differs by kind of shard: a
vector shard raises `NotLoadedError`, while a lexical shard raises a
`TypeError` from iterating `None`. -/
theorem search_unloaded_error_spec (raw : String → ℕ → List (ℤ × ℚ))
    (fs : FaissState) (log : ℚ → ℚ) (bs : Bm25State) (query : String) (k : ℕ)
    (hf : fs.index = none) (hb : bs.documents = none) :
    faiss_search raw fs query k = .error .notLoaded ∧
    bm25_search log bs query k = .error .typeError := by
  constructor
  · simp [faiss_search, hf]
  · simp [bm25_search, hb]

/-- C8 witness. -/
theorem search_unloaded_error_spec_witness :
    faiss_search (fun _ _ => [(4, 1)]) ⟨none, "a.faiss"⟩ "q" 3 = .error .notLoaded ∧
    bm25_search (fun q => q) ⟨none, [], [], 0, 0, 3 / 2, 7 / 10, 0⟩ "q" 3 =
      .error .typeError :=
  search_unloaded_error_spec (fun _ _ => [(4, 1)]) ⟨none, "a.faiss"⟩ (fun q => q)
    ⟨none, [], [], 0, 0, 3 / 2, 7 / 10, 0⟩ "q" 3 rfl rfl

/-- The loaded state reached by `insert([SubDocument(1, "a")])` followed by
`insert([SubDocument(2, "a b")])` on a fresh, loaded, empty `BM25Index`
with default parameters `k=1.5, b=0.7, delta=0`: document 1 has tokens
`["a"]`, document 2 has `["a", "b"]`; `_document_terms = {a: 2, b: 1}`;
`_term_freqs = {1: {a: 1}, 2: {a: 1, b: 1}}`; `_N = 2`; `_avg_doc_len = 2`
(the running total adds `len(doc.data)` — character counts 1 and 3). -/
def bm25StateAB : Bm25State :=
  { documents := some [(1, ["a"]), (2, ["a", "b"])]
    document_terms := [("a", 2), ("b", 1)]
    term_freqs := [(1, [("a", 1)]), (2, [("a", 1), ("b", 1)])]
    avg_doc_len := 2
    n := 2
    k := 3 / 2
    b := 7 / 10
    delta := 0 }

/-- C9: searching this loaded two-document shard for the query `"b"` does
not return BM25 scores at all — scoring document 1 evaluates
`self._term_freqs[1]["b"]`, and since document 1 does not contain the term
`"b"`, Python raises `KeyError` (for any value of `math.log`).  The claim
(and spec formula, where an absent term has `f = 0` and contributes `δ = 0`)
expects a score for every document instead. -/
theorem bm25_search_keyerror_on_absent_term (log : ℚ → ℚ) :
    bm25_search log bm25StateAB "b" 2 = .error (.keyError "b") := by
  rfl

/-! ## IndexingQueue coalescer (src/src/indexing/indexing_queue.py)

`IndexingQueue._apply_operations` first reduces the drained operation list
into `reduced_operations: Dict[int, List[IndexingOperation]]`.  The dict is
rendered as a total function with default `[]`: every branch of the Python
loop tests `doc_id in reduced_operations` together with truthiness of the
stored list, so an absent key and a present-but-empty list are
indistinguishable (and a present empty list is never stored). -/

structure ProcessedDocument (α : Type) where
  id : ℕ
  data : α
deriving DecidableEq

inductive IndexingOperationType where
  | insert
  | delete
deriving DecidableEq

structure IndexingOperation (α : Type) where
  value : ProcessedDocument α
  operation : IndexingOperationType
deriving DecidableEq

/-- The value `acc[-1].operation` of the reduced list for one doc id. -/
def lastOpType {α : Type} : List (IndexingOperation α) → Option IndexingOperationType
  | [] => none
  | [op] => some op.operation
  | _ :: rest => lastOpType rest

/-- The value `acc[-2].operation` of the reduced list for one doc id. -/
def secondLastOpType {α : Type} : List (IndexingOperation α) → Option IndexingOperationType
  | [] => none
  | [_] => none
  | [op, _] => some op.operation
  | _ :: rest => secondLastOpType rest

/-- The body of the coalescing loop for one arriving operation, acting on
the reduced list currently stored for the operation's doc id. -/
def coalesceStep {α : Type} [DecidableEq α] (acc : List (IndexingOperation α))
    (op : IndexingOperation α) : List (IndexingOperation α) :=
  match op.operation with
  | .insert =>
    if acc ≠ [] ∧ lastOpType acc = some .delete then acc ++ [op]
    else [op]
  | .delete =>
    if 1 < acc.length ∧ lastOpType acc = some .insert ∧
        secondLastOpType acc = some .delete then [op]
    else if acc ≠ [] ∧ lastOpType acc = some .insert then []
    else [op]

/-- One iteration of the Python loop: update the dict at the arriving
operation's doc id. -/
def coalesceMapStep {α : Type} [DecidableEq α] (m : ℕ → List (IndexingOperation α))
    (op : IndexingOperation α) : ℕ → List (IndexingOperation α) :=
  fun i => if i = op.value.id then coalesceStep (m op.value.id) op else m i

/-- The full coalescer: the reduced per-doc-id lists after the loop over
`operations`. -/
def coalesceMap {α : Type} [DecidableEq α] (ops : List (IndexingOperation α)) :
    ℕ → List (IndexingOperation α) :=
  ops.foldl coalesceMapStep (fun _ => [])

/-- The rewrite rules as the claim states them (spec side of C3):
an Insert after a Delete is kept as `[Delete, Insert]`; a Delete after a
solitary Insert cancels both; a Delete after `[Delete, Insert]` collapses
to `[Delete]`; any other arriving operation keeps only the latest
operation for the id. -/
def coalesceRuleSpec {α : Type} (acc : List (IndexingOperation α))
    (op : IndexingOperation α) : List (IndexingOperation α) :=
  match acc with
  | [prev] =>
    match prev.operation, op.operation with
    | .delete, .insert => [prev, op]
    | .insert, .delete => []
    | _, _ => [op]
  | _ => [op]

/-- Reduced lists reachable for doc id `d`: empty, a single operation on
`d`, or a Delete followed by an Insert, both on `d`. -/
def ShapeOk {α : Type} (d : ℕ) : List (IndexingOperation α) → Prop
  | [] => True
  | [op] => op.value.id = d
  | [op1, op2] => op1.value.id = d ∧ op2.value.id = d ∧
      op1.operation = .delete ∧ op2.operation = .insert
  | _ => False

lemma coalesceStep_shape {α : Type} [DecidableEq α] (d : ℕ) (acc : List (IndexingOperation α))
    (op : IndexingOperation α) (hacc : ShapeOk d acc) (hop : op.value.id = d) :
    ShapeOk d (coalesceStep acc op) := by
  rcases acc with _ | ⟨a, _ | ⟨b, _ | ⟨c, rest⟩⟩⟩
  · cases hopty : op.operation <;> simp [coalesceStep, hopty, ShapeOk, hop]
  · simp only [ShapeOk] at hacc
    cases hopty : op.operation <;> cases haty : a.operation <;>
      simp [coalesceStep, hopty, haty, lastOpType, secondLastOpType, ShapeOk, hop, hacc]
  · simp only [ShapeOk] at hacc
    obtain ⟨ha, hb, haty, hbty⟩ := hacc
    cases hopty : op.operation <;>
      simp [coalesceStep, hopty, haty, hbty, lastOpType, secondLastOpType, ShapeOk, hop]
  · simp only [ShapeOk] at hacc

lemma coalesceStep_eq_spec {α : Type} [DecidableEq α] (d : ℕ) (acc : List (IndexingOperation α))
    (op : IndexingOperation α) (hacc : ShapeOk d acc) :
    coalesceStep acc op = coalesceRuleSpec acc op := by
  rcases acc with _ | ⟨a, _ | ⟨b, _ | ⟨c, rest⟩⟩⟩
  · cases hopty : op.operation <;> simp [coalesceStep, hopty, coalesceRuleSpec]
  · cases hopty : op.operation <;> cases haty : a.operation <;>
      simp [coalesceStep, hopty, haty, lastOpType, secondLastOpType, coalesceRuleSpec]
  · simp only [ShapeOk] at hacc
    obtain ⟨ha, hb, haty, hbty⟩ := hacc
    cases hopty : op.operation <;>
      simp [coalesceStep, hopty, haty, hbty, lastOpType, secondLastOpType, coalesceRuleSpec]
  · simp only [ShapeOk] at hacc

lemma coalesceMap_shape {α : Type} [DecidableEq α] (ops : List (IndexingOperation α)) (i : ℕ) :
    ShapeOk i (coalesceMap ops i) := by
  suffices h : ∀ (m : ℕ → List (IndexingOperation α)), (∀ j, ShapeOk j (m j)) →
      ∀ j, ShapeOk j (ops.foldl coalesceMapStep m j) by
    exact h (fun _ => []) (fun _ => trivial) i
  induction ops with
  | nil => exact fun m hm => hm
  | cons op ops ih =>
    intro m hm
    refine ih (coalesceMapStep m op) ?_
    intro j
    rw [coalesceMapStep]
    by_cases hj : j = op.value.id
    · subst hj
      rw [if_pos rfl]
      exact coalesceStep_shape _ _ op (hm op.value.id) rfl
    · rw [if_neg hj]
      exact hm j

/-- C3: the coalescer rewrites the per-doc-id reduced list of every
arriving operation exactly by the claim's four rules — the dict entry of
the operation's doc id is rewritten by `coalesceRuleSpec`, every other
entry is untouched. -/
theorem coalescer_step_matches_spec_rules {α : Type} [DecidableEq α]
    (ops : List (IndexingOperation α)) (op : IndexingOperation α) (i : ℕ) :
    coalesceMap (ops ++ [op]) i =
      if i = op.value.id then coalesceRuleSpec (coalesceMap ops i) op
      else coalesceMap ops i := by
  rw [coalesceMap, List.foldl_append]
  show coalesceMapStep (coalesceMap ops) op i = _
  rw [coalesceMapStep]
  by_cases hi : i = op.value.id
  · rw [if_pos hi, if_pos hi, ← hi,
      coalesceStep_eq_spec i (coalesceMap ops i) op (coalesceMap_shape ops i)]
  · rw [if_neg hi, if_neg hi]

/-- One mutation applied to a shard, viewed as the state the claim names —
the set of stored ids with the content stored per id — rendered as an
association list: `insert` stores the document's content under its id,
replacing any content the id had (`FaissIndex.insert` updates `_ids` and
the per-id entry, `BM25Index.insert` assigns `self._documents[doc_id]`);
`delete` drops the id (`FaissIndex.remove` calls `remove_ids` and discards
from `_ids`). -/
def applyOp {α : Type} (s : List (ℕ × α)) (op : IndexingOperation α) : List (ℕ × α) :=
  match op.operation with
  | .insert => (op.value.id, op.value.data) :: s.filter (fun p => p.1 != op.value.id)
  | .delete => s.filter (fun p => p.1 != op.value.id)

def applySeq {α : Type} (s : List (ℕ × α)) (ops : List (IndexingOperation α)) :
    List (ℕ × α) :=
  ops.foldl applyOp s

lemma applySeq_coalesceStep {α : Type} [DecidableEq α] (d : ℕ)
    (acc : List (IndexingOperation α)) (op : IndexingOperation α)
    (hacc : ShapeOk d acc) (hop : op.value.id = d) :
    applySeq [] (coalesceStep acc op) = applyOp (applySeq [] acc) op := by
  rcases acc with _ | ⟨a, _ | ⟨b, _ | ⟨c, rest⟩⟩⟩
  · cases hopty : op.operation <;> simp [coalesceStep, hopty, applySeq, applyOp]
  · simp only [ShapeOk] at hacc
    cases hopty : op.operation <;> cases haty : a.operation <;>
      simp [coalesceStep, hopty, haty, lastOpType, secondLastOpType, applySeq, applyOp,
        hacc, hop]
  · simp only [ShapeOk] at hacc
    obtain ⟨ha, hb, haty, hbty⟩ := hacc
    cases hopty : op.operation <;>
      simp [coalesceStep, hopty, haty, hbty, lastOpType, secondLastOpType, applySeq,
        applyOp, ha, hb, hop]
  · simp only [ShapeOk] at hacc

lemma coalesce_foldl_sem {α : Type} [DecidableEq α] (d : ℕ)
    (ops : List (IndexingOperation α)) (hops : ∀ op ∈ ops, op.value.id = d) :
    ∀ acc, ShapeOk d acc →
      applySeq [] (ops.foldl coalesceStep acc) = applySeq (applySeq [] acc) ops := by
  induction ops with
  | nil => intro acc hacc; rfl
  | cons op ops ih =>
    intro acc hacc
    have hop := hops op (List.mem_cons_self op ops)
    calc applySeq [] ((op :: ops).foldl coalesceStep acc)
        = applySeq [] (ops.foldl coalesceStep (coalesceStep acc op)) := rfl
      _ = applySeq (applySeq [] (coalesceStep acc op)) ops :=
            ih (fun o ho => hops o (List.mem_cons_of_mem op ho))
              (coalesceStep acc op) (coalesceStep_shape d acc op hacc hop)
      _ = applySeq (applyOp (applySeq [] acc) op) ops := by
            rw [applySeq_coalesceStep d acc op hacc hop]
      _ = applySeq (applySeq [] acc) (op :: ops) := rfl

lemma coalesceMap_single_id {α : Type} [DecidableEq α] (d : ℕ)
    (ops : List (IndexingOperation α)) (hops : ∀ op ∈ ops, op.value.id = d) :
    ∀ m : ℕ → List (IndexingOperation α),
      (ops.foldl coalesceMapStep m) d = ops.foldl coalesceStep (m d) := by
  induction ops with
  | nil => intro m; rfl
  | cons op ops ih =>
    intro m
    have hop := hops op (List.mem_cons_self op ops)
    have hstep : coalesceMapStep m op d = coalesceStep (m d) op := by
      simp only [coalesceMapStep]
      rw [hop, if_pos rfl]
    calc (List.foldl coalesceMapStep m (op :: ops)) d
        = (List.foldl coalesceMapStep (coalesceMapStep m op) ops) d := rfl
      _ = List.foldl coalesceStep (coalesceMapStep m op d) ops :=
            ih (fun o ho => hops o (List.mem_cons_of_mem op ho)) (coalesceMapStep m op)
      _ = List.foldl coalesceStep (m d) (op :: ops) := by
            rw [hstep, List.foldl_cons]

/-- C1: for a batch of mutations all on doc id `d`, applying the per-id
output of the coalescer to an empty shard produces the same shard state —
stored ids and per-id content — as applying the original uncoalesced
sequence. -/
theorem coalescer_preserves_final_state {α : Type} [DecidableEq α] (d : ℕ)
    (ops : List (IndexingOperation α)) (hops : ∀ op ∈ ops, op.value.id = d) :
    applySeq ([] : List (ℕ × α)) (coalesceMap ops d) = applySeq [] ops := by
  rw [coalesceMap, coalesceMap_single_id d ops hops (fun _ => [])]
  exact coalesce_foldl_sem d ops hops [] trivial

/-- C1 witness: the batch Insert(d1), Delete(d1), Insert(d1') of scenario
S3, on doc id 5. -/
theorem coalescer_preserves_final_state_witness :
    applySeq ([] : List (ℕ × ℕ))
      (coalesceMap ([⟨⟨5, 10⟩, .insert⟩, ⟨⟨5, 0⟩, .delete⟩, ⟨⟨5, 11⟩, .insert⟩] :
        List (IndexingOperation ℕ)) 5) =
      applySeq []
        ([⟨⟨5, 10⟩, .insert⟩, ⟨⟨5, 0⟩, .delete⟩, ⟨⟨5, 11⟩, .insert⟩] :
          List (IndexingOperation ℕ)) :=
  coalescer_preserves_final_state 5
    ([⟨⟨5, 10⟩, .insert⟩, ⟨⟨5, 0⟩, .delete⟩, ⟨⟨5, 11⟩, .insert⟩] :
      List (IndexingOperation ℕ)) (by decide)
